import Mathlib

/-!
Verification of the ImageGallery backend (src/src-tauri/src/lib.rs).

The backend exposes three stateless operations: scan_folder (enumerate image
files in a directory), generate_tags (send one image to a local inference
server and parse a comma-separated tag list), and check_ollama (liveness
probe). We embed each operation shallowly: filesystem and network effects
become explicit parameters describing the outcome of the corresponding
system call, and the pure logic (extension filtering, record construction,
sorting, tag parsing, error formatting, base64 encoding) is translated
directly from the source.

Modelling conventions, noted where they matter:
- Rust String lowercasing is modelled per-character with Char.toLower
  (ASCII case mapping); all extension constants are ASCII, and byte-wise
  UTF-8 lexicographic order coincides with codepoint lexicographic order,
  so Lean String order models Rust str Ord.
- Rust str::trim strips Unicode whitespace; Lean String.trim strips ASCII
  whitespace, which agrees on all inputs appearing in the claims.
- Rust str::len is the UTF-8 byte length, modelled by String.utf8ByteSize.
- Bytes are Nat values < 256.
-/

namespace ImageGallery

/-- ImageInfo record, from lib.rs lines 6-13. -/
structure ImageInfo where
  id : String
  path : String
  name : String
  tags : List String
  description : String
deriving DecidableEq, Repr

/-- OllamaRequest, from lib.rs lines 15-21 (images carry base64 strings). -/
structure OllamaRequest where
  model : String
  prompt : String
  images : List String
  stream : Bool
deriving DecidableEq, Repr

/-- IMAGE_EXTENSIONS, lib.rs line 28. -/
def IMAGE_EXTENSIONS : List String :=
  ["jpg", "jpeg", "png", "gif", "webp", "bmp", "tiff", "tif", "svg"]

/-- Per-character lowercasing, modelling Rust str::to_lowercase (the two
agree on ASCII, which is all the extension set and the claims exercise). -/
def toLowercase (s : String) : String := ⟨s.data.map Char.toLower⟩

/-- Lexicographic order on character lists, modelling Rust str Ord: Rust
compares UTF-8 bytes lexicographically, which coincides with comparing
the codepoint sequences lexicographically. -/
def listCharLe : List Char → List Char → Bool
  | [], _ => true
  | _ :: _, [] => false
  | a :: as, b :: bs =>
    if a.toNat < b.toNat then true
    else if b.toNat < a.toNat then false
    else listCharLe as bs

/-- String comparison used by the sort comparator at lib.rs line 77. -/
def strLe (s t : String) : Bool := listCharLe s.data t.data

/-- Whitespace predicate of Rust str::trim, restricted to the ASCII
whitespace characters (the claims exercise no exotic Unicode
whitespace). -/
def isWhitespaceChar (c : Char) : Bool :=
  c == ' ' || c == '\t' || c == '\n' || c == '\r'

/-- Strip leading and trailing whitespace, modelling str::trim. -/
def trimChars (cs : List Char) : List Char :=
  ((cs.dropWhile isWhitespaceChar).reverse.dropWhile isWhitespaceChar).reverse

/-- str::trim on strings. -/
def strTrim (s : String) : String := ⟨trimChars s.data⟩

/-- Split a character list at every comma, modelling str::split with the
comma pattern: adjacent commas and commas at either end produce empty
pieces, and the empty input produces one empty piece. -/
def splitOnComma : List Char → List (List Char)
  | [] => [[]]
  | c :: rest =>
    if c = ',' then [] :: splitOnComma rest
    else
      match splitOnComma rest with
      | h :: t => (c :: h) :: t
      | [] => [[c]]

/-- Characters after the last dot of a list (used on the part of a file
name after its first character). -/
def afterLastDot : List Char → List Char
  | [] => []
  | c :: rest => if ('.' ∈ rest) then afterLastDot rest
                 else if c = '.' then rest else afterLastDot rest

/-- Rust Path::extension on a final path component: the portion after the
last dot, except that there is no extension when the name is empty, has no
dot, or begins with a dot that is its only dot (dotfiles). -/
def extension (name : String) : Option String :=
  match name.data with
  | [] => none
  | _ :: cs => if ('.' ∈ cs) then some ⟨afterLastDot cs⟩ else none

/-- One raw directory entry as seen by read_dir: its file name and whether
the entry is a regular file (lib.rs lines 48-50 look only at these). -/
structure DirEntry where
  name : String
  isFile : Bool
deriving DecidableEq, Repr

/-- The state of the filesystem at the scanned path, covering every branch
scan_folder distinguishes (lib.rs lines 34-44): the path is missing, exists
but is not a directory, is a directory whose listing fails with a message,
or is a directory yielding a list of entries. A none item models an entry
whose read_dir item was an Err: the loop skips it but its index is still
consumed by enumerate. -/
inductive Folder
  | missing
  | notDir
  | unreadable (msg : String)
  | dir (entries : List (Option DirEntry))
deriving Repr

/-- The filter of lib.rs lines 50-54: keep an entry when it is a regular
file whose extension, lower-cased, is in IMAGE_EXTENSIONS. -/
def keepEntry (e : DirEntry) : Bool :=
  e.isFile &&
    match extension e.name with
    | some ext => IMAGE_EXTENSIONS.contains (toLowercase ext)
    | none => false

/-- The record built at lib.rs lines 60-66 for the entry at raw enumeration
index i; entry.path() is the folder path joined with the entry name. -/
def mkRecord (folderPath : String) (i : Nat) (e : DirEntry) : ImageInfo :=
  { id := "img_" ++ toString i
  , path := folderPath ++ "/" ++ e.name
  , name := e.name
  , tags := []
  , description := "" }

/-- The enumeration loop of lib.rs lines 46-71, carrying the running
enumerate index: Err entries and filtered-out entries are skipped but
advance the index. -/
def scanLoop (folderPath : String) (index : Nat) :
    List (Option DirEntry) → List ImageInfo
  | [] => []
  | oe :: rest =>
    match oe with
    | some e =>
      if keepEntry e then mkRecord folderPath index e :: scanLoop folderPath (index + 1) rest
      else scanLoop folderPath (index + 1) rest
    | none => scanLoop folderPath (index + 1) rest

/-- All records collected before the final sort. -/
def collectImages (folderPath : String) (entries : List (Option DirEntry)) :
    List ImageInfo :=
  scanLoop folderPath 0 entries

/-- The comparator of lib.rs line 77 as a total preorder: the Rust stable
sort_by with cmp on lowered names keeps a before b exactly when
lower(a.name) is at most lower(b.name). Lexicographic order on Lean
strings (by codepoint) coincides with Rust str Ord (by UTF-8 byte), since
UTF-8 byte order agrees with codepoint order. -/
def nameLe (a b : ImageInfo) : Prop :=
  strLe (toLowercase a.name) (toLowercase b.name) = true

instance : DecidableRel nameLe := fun _ _ =>
  inferInstanceAs (Decidable (_ = true))

theorem listCharLe_total : ∀ as bs : List Char,
    listCharLe as bs = true ∨ listCharLe bs as = true := by
  intro as
  induction as with
  | nil => intro bs; left; rfl
  | cons a as ih =>
    intro bs
    cases bs with
    | nil => right; rfl
    | cons b bs =>
      simp only [listCharLe]
      rcases Nat.lt_trichotomy a.toNat b.toNat with h | h | h
      · left; simp [h]
      · have h1 : ¬ a.toNat < b.toNat := by omega
        have h2 : ¬ b.toNat < a.toNat := by omega
        simpa [h1, h2] using ih bs
      · right; simp [h]

theorem listCharLe_head_le {a b : Char} {as bs : List Char}
    (h : listCharLe (a :: as) (b :: bs) = true) : a.toNat ≤ b.toNat := by
  simp only [listCharLe] at h
  by_cases h1 : a.toNat < b.toNat
  · omega
  · by_cases h2 : b.toNat < a.toNat
    · simp [h1, h2] at h
    · omega

theorem listCharLe_trans : ∀ as bs cs : List Char,
    listCharLe as bs = true → listCharLe bs cs = true →
    listCharLe as cs = true := by
  intro as
  induction as with
  | nil => intro bs cs _ _; rfl
  | cons a as ih =>
    intro bs cs hab hbc
    cases bs with
    | nil => simp [listCharLe] at hab
    | cons b bs =>
      cases cs with
      | nil => simp [listCharLe] at hbc
      | cons c cs =>
        have h1 := listCharLe_head_le hab
        have h2 := listCharLe_head_le hbc
        by_cases hac : a.toNat < c.toNat
        · simp [listCharLe, hac]
        · have hab0 : a.toNat = b.toNat := by omega
          have hbc0 : b.toNat = c.toNat := by omega
          have na1 : ¬ a.toNat < b.toNat := by omega
          have na2 : ¬ b.toNat < a.toNat := by omega
          have nb1 : ¬ b.toNat < c.toNat := by omega
          have nb2 : ¬ c.toNat < b.toNat := by omega
          have nc2 : ¬ c.toNat < a.toNat := by omega
          simp only [listCharLe, if_neg na1, if_neg na2] at hab
          simp only [listCharLe, if_neg nb1, if_neg nb2] at hbc
          simp only [listCharLe, if_neg hac, if_neg nc2]
          exact ih bs cs hab hbc

instance : IsTotal ImageInfo nameLe :=
  ⟨fun a b => listCharLe_total (toLowercase a.name).data (toLowercase b.name).data⟩

instance : IsTrans ImageInfo nameLe :=
  ⟨fun _ _ _ h h' => listCharLe_trans _ _ _ h h'⟩

/-- scan_folder, lib.rs lines 31-80, as a function of the filesystem state
at folder_path. Rust slice sort_by is a stable sort, and a stable sort by
a total preorder has a unique result (sorted, with tied elements in input
order), so it is modelled by insertion sort, which is stable. -/
def scan_folder (folder : Folder) (folder_path : String) :
    Except String (List ImageInfo) :=
  match folder with
  | .missing => .error "Folder does not exist"
  | .notDir => .error "Path is not a directory"
  | .unreadable msg => .error ("Failed to read directory: " ++ msg)
  | .dir entries =>
    .ok ((collectImages folder_path entries).insertionSort nameLe)

/-- Tag extraction from the inference response, lib.rs lines 116-121:
split on commas, trim then lower-case each piece, keep nonempty pieces
whose UTF-8 byte length (Rust str::len) is below 50. -/
def parseTags (response : String) : List String :=
  ((splitOnComma response.data).map (fun cs => toLowercase (strTrim ⟨cs⟩))).filter
    (fun s => !(s == "") && s.utf8ByteSize < 50)

/-- Tag extraction as the specification words it, for comparison with
parseTags: identical except that the length cutoff counts characters
rather than UTF-8 bytes (Rust str::len counts bytes). -/
def parseTagsSpec (response : String) : List String :=
  ((splitOnComma response.data).map (fun cs => toLowercase (strTrim ⟨cs⟩))).filter
    (fun s => !(s == "") && s.length < 50)

/-- reqwest StatusCode::is_success: 2xx statuses. -/
def isSuccess (status : Nat) : Bool := 200 ≤ status && status < 300

/-- Outcome of the HTTP POST in generate_tags: either send() failed with an
error message, or a response arrived with a status and a body whose JSON
decoding either fails with a message or yields the response field. -/
inductive HttpOutcome
  | sendError (msg : String)
  | response (status : Nat) (body : Except String String)
deriving Repr

/-- The fixed request built at lib.rs lines 92-97 from the base64 string. -/
def mkOllamaRequest (imageBase64 : String) : OllamaRequest :=
  { model := "moondream"
  , prompt := "List 5-10 descriptive tags for this image. Output only the tags separated by commas, nothing else. Example: nature, sunset, mountain, peaceful, orange sky"
  , images := [imageBase64]
  , stream := false }

/-- The standard base64 alphabet. -/
def base64Chars : List Char :=
  "ABCDEFGHIJKLMNOPQRSTUVWXYZabcdefghijklmnopqrstuvwxyz0123456789+/".data

/-- Character for a six-bit value. -/
def sextetToChar (n : Nat) : Char := base64Chars.getD n 'A'

/-- Six-bit value of an alphabet character; none for characters outside the
alphabet. -/
def charToSextet (c : Char) : Option Nat := base64Chars.indexOf? c

/-- Modelled from the spec: the standard padded base64 encoding performed by
the third-party base64 crate (STANDARD engine) invoked at lib.rs line 89;
the crate source is not part of this repository. Bytes are taken three at a
time into four sextet characters, with '=' padding for a final group of one
or two bytes. -/
def encodeChunks : List Nat → List Char
  | b0 :: b1 :: b2 :: rest =>
    sextetToChar (b0 / 4) ::
    sextetToChar (b0 % 4 * 16 + b1 / 16) ::
    sextetToChar (b1 % 16 * 4 + b2 / 64) ::
    sextetToChar (b2 % 64) :: encodeChunks rest
  | [b0, b1] =>
    [sextetToChar (b0 / 4), sextetToChar (b0 % 4 * 16 + b1 / 16),
     sextetToChar (b1 % 16 * 4), '=']
  | [b0] =>
    [sextetToChar (b0 / 4), sextetToChar (b0 % 4 * 16), '=', '=']
  | [] => []

/-- base64 encoding of a byte sequence as a string. -/
def base64Encode (bs : List Nat) : String := ⟨encodeChunks bs⟩

/-- Modelled from the spec: standard base64 decoding (as a mock server
would perform it to recover the image bytes); none on any malformed
input. -/
def decodeChunks : List Char → Option (List Nat)
  | [] => some []
  | c0 :: c1 :: c2 :: c3 :: rest =>
    if c2 = '=' && c3 = '=' && rest = [] then
      match charToSextet c0, charToSextet c1 with
      | some s0, some s1 => some [s0 * 4 + s1 / 16]
      | _, _ => none
    else if c3 = '=' && rest = [] then
      match charToSextet c0, charToSextet c1, charToSextet c2 with
      | some s0, some s1, some s2 =>
        some [s0 * 4 + s1 / 16, s1 % 16 * 16 + s2 / 4]
      | _, _, _ => none
    else
      match charToSextet c0, charToSextet c1, charToSextet c2,
            charToSextet c3, decodeChunks rest with
      | some s0, some s1, some s2, some s3, some tail =>
        some ((s0 * 4 + s1 / 16) :: (s1 % 16 * 16 + s2 / 4) ::
              (s2 % 4 * 64 + s3) :: tail)
      | _, _, _, _, _ => none
  | _ => none

/-- base64 decoding of a string to a byte sequence. -/
def base64Decode (s : String) : Option (List Nat) := decodeChunks s.data

/-- generate_tags, lib.rs lines 83-124, as a function of the outcome of
reading the image file (the bytes, or an IO error message) and of the HTTP
POST to the inference endpoint. -/
def generate_tags (fileRead : Except String (List Nat)) (http : HttpOutcome) :
    Except String (List String) :=
  match fileRead with
  | .error e => .error ("Failed to read image: " ++ e)
  | .ok bytes =>
    let _req := mkOllamaRequest (base64Encode bytes)
    match http with
    | .sendError e => .error ("Failed to call Ollama: " ++ e ++ ". Is Ollama running?")
    | .response status body =>
      if !(isSuccess status) then
        .error ("Ollama returned error: " ++ toString status)
      else
        match body with
        | .error e => .error ("Failed to parse Ollama response: " ++ e)
        | .ok resp => .ok (parseTags resp)

/-- check_ollama, lib.rs lines 127-133, as a function of the outcome of the
GET to the health endpoint: either an error message or a status code. -/
def check_ollama (http : Except String Nat) : Except String Bool :=
  match http with
  | .ok status => .ok (isSuccess status)
  | .error _ => .ok false

/-! ### Helper lemmas -/

/-- Membership in the enumeration loop: a record is produced exactly for a
kept entry at some raw index, with the running index added. -/
theorem mem_scanLoop (fp : String) :
    ∀ (entries : List (Option DirEntry)) (k : Nat) (r : ImageInfo),
    r ∈ scanLoop fp k entries ↔
      ∃ i e, entries[i]? = some (some e) ∧ keepEntry e = true ∧
        r = mkRecord fp (k + i) e := by
  intro entries
  induction entries with
  | nil => intro k r; simp [scanLoop]
  | cons oe rest ih =>
    intro k r
    cases oe with
    | none =>
      simp only [scanLoop]
      rw [ih]
      constructor
      · rintro ⟨i, e, hget, hke, hr⟩
        refine ⟨i + 1, e, by simpa using hget, hke, ?_⟩
        have harith : k + 1 + i = k + (i + 1) := by omega
        rw [← harith]; exact hr
      · rintro ⟨i, e, hget, hke, hr⟩
        cases i with
        | zero => simp at hget
        | succ j =>
          refine ⟨j, e, by simpa using hget, hke, ?_⟩
          have harith : k + 1 + j = k + (j + 1) := by omega
          rw [harith]; exact hr
    | some e0 =>
      by_cases hke0 : keepEntry e0 = true
      · simp only [scanLoop, if_pos hke0, List.mem_cons]
        rw [ih]
        constructor
        · rintro (hr | ⟨i, e, hget, hke, hr⟩)
          · exact ⟨0, e0, by simp, hke0, by simpa using hr⟩
          · refine ⟨i + 1, e, by simpa using hget, hke, ?_⟩
            have harith : k + 1 + i = k + (i + 1) := by omega
            rw [← harith]; exact hr
        · rintro ⟨i, e, hget, hke, hr⟩
          cases i with
          | zero =>
            left
            have he : e0 = e := by simpa using hget
            subst he
            simpa using hr
          | succ j =>
            right
            refine ⟨j, e, by simpa using hget, hke, ?_⟩
            have harith : k + 1 + j = k + (j + 1) := by omega
            rw [harith]; exact hr
      · simp only [scanLoop, if_neg hke0]
        rw [ih]
        constructor
        · rintro ⟨i, e, hget, hke, hr⟩
          refine ⟨i + 1, e, by simpa using hget, hke, ?_⟩
          have harith : k + 1 + i = k + (i + 1) := by omega
          rw [← harith]; exact hr
        · rintro ⟨i, e, hget, hke, hr⟩
          cases i with
          | zero =>
            have he : e0 = e := by simpa using hget
            subst he
            exact absurd hke hke0
          | succ j =>
            refine ⟨j, e, by simpa using hget, hke, ?_⟩
            have harith : k + 1 + j = k + (j + 1) := by omega
            rw [harith]; exact hr

/-- Membership in the collected (pre-sort) record list. -/
theorem mem_collectImages (fp : String) (entries : List (Option DirEntry))
    (r : ImageInfo) :
    r ∈ collectImages fp entries ↔
      ∃ i e, entries[i]? = some (some e) ∧ keepEntry e = true ∧
        r = mkRecord fp i e := by
  unfold collectImages
  rw [mem_scanLoop]
  simp

/-- The keep condition spelled out: a regular file whose extension exists
and lower-cases into the supported set. -/
theorem keepEntry_iff (e : DirEntry) :
    keepEntry e = true ↔
      e.isFile = true ∧
        ∃ ext, extension e.name = some ext ∧
          toLowercase ext ∈ IMAGE_EXTENSIONS := by
  unfold keepEntry
  cases hext : extension e.name with
  | none => simp [hext]
  | some ext =>
    simp only [hext, Bool.and_eq_true]
    constructor
    · rintro ⟨hf, hc⟩
      exact ⟨hf, ext, rfl, by simpa using hc⟩
    · rintro ⟨hf, ext2, hsome, hmem⟩
      have hx : ext = ext2 := by injection hsome
      subst hx
      exact ⟨hf, by simpa using hmem⟩

theorem listCharLe_refl : ∀ cs : List Char, listCharLe cs cs = true := by
  intro cs
  induction cs with
  | nil => rfl
  | cons c cs ih => simpa [listCharLe] using ih

/-- The successful scan result is the insertion sort of the collected
records. -/
theorem scan_folder_ok (fp : String) (entries : List (Option DirEntry))
    (imgs : List ImageInfo) (h : scan_folder (.dir entries) fp = .ok imgs) :
    imgs = (collectImages fp entries).insertionSort nameLe := by
  unfold scan_folder at h
  exact (Except.ok.inj h).symm

/-! ### Claim theorems -/

/-- C1: for every directory, scan_folder returns exactly the records of the
regular-file entries whose extension exists and lower-cases into the
supported set, and no others, with the result sorted ascending by
case-insensitive comparison of the name field. -/
theorem scan_folder_returns_supported_sorted (fp : String)
    (entries : List (Option DirEntry)) (imgs : List ImageInfo)
    (h : scan_folder (.dir entries) fp = .ok imgs) :
    (∀ r : ImageInfo, r ∈ imgs ↔
      ∃ (i : Nat) (e : DirEntry), entries[i]? = some (some e) ∧ e.isFile = true ∧
        (∃ ext, extension e.name = some ext ∧
          toLowercase ext ∈ IMAGE_EXTENSIONS) ∧
        r = mkRecord fp i e) ∧
    imgs.Pairwise nameLe := by
  have himgs := scan_folder_ok fp entries imgs h
  constructor
  · intro r
    rw [himgs, List.mem_insertionSort, mem_collectImages]
    constructor
    · rintro ⟨i, e, hget, hke, hr⟩
      rcases (keepEntry_iff e).mp hke with ⟨hf, hext⟩
      exact ⟨i, e, hget, hf, hext, hr⟩
    · rintro ⟨i, e, hget, hf, hext, hr⟩
      exact ⟨i, e, hget, (keepEntry_iff e).mpr ⟨hf, hext⟩, hr⟩
  · rw [himgs]
    exact List.sorted_insertionSort nameLe (collectImages fp entries)

theorem scan_folder_returns_supported_sorted_witness :
    ([mkRecord "/d" 1 ⟨"a.jpg", true⟩, mkRecord "/d" 0 ⟨"B.png", true⟩] :
        List ImageInfo).Pairwise nameLe :=
  (scan_folder_returns_supported_sorted "/d"
    [some ⟨"B.png", true⟩, some ⟨"a.jpg", true⟩]
    [mkRecord "/d" 1 ⟨"a.jpg", true⟩, mkRecord "/d" 0 ⟨"B.png", true⟩]
    rfl).2

/-- C2: every returned record is built from its entry's raw enumeration
index (so skipped entries consume indices): id is img_ followed by that
index, path is the folder path joined with the name, name is the entry's
base name, tags are empty and description is empty; the sort merely
permutes the already-built records, so ids are not reassigned after it. -/
theorem scan_folder_record_shape (fp : String)
    (entries : List (Option DirEntry)) (imgs : List ImageInfo)
    (h : scan_folder (.dir entries) fp = .ok imgs) :
    imgs.Perm (collectImages fp entries) ∧
    ∀ r ∈ imgs, ∃ (i : Nat) (e : DirEntry),
      entries[i]? = some (some e) ∧ keepEntry e = true ∧
      r.id = "img_" ++ toString i ∧ r.path = fp ++ "/" ++ e.name ∧
      r.name = e.name ∧ r.tags = [] ∧ r.description = "" := by
  have himgs := scan_folder_ok fp entries imgs h
  constructor
  · rw [himgs]
    exact List.perm_insertionSort nameLe (collectImages fp entries)
  · intro r hr
    rw [himgs, List.mem_insertionSort, mem_collectImages] at hr
    rcases hr with ⟨i, e, hget, hke, hr⟩
    subst hr
    exact ⟨i, e, hget, hke, rfl, rfl, rfl, rfl, rfl⟩

theorem scan_folder_record_shape_witness :
    ∃ (i : Nat) (e : DirEntry), ([none, some ⟨"a.jpg", true⟩] :
        List (Option DirEntry))[i]? = some (some e) ∧ keepEntry e = true ∧
      (mkRecord "/d" 1 ⟨"a.jpg", true⟩).id = "img_" ++ toString i ∧
      (mkRecord "/d" 1 ⟨"a.jpg", true⟩).path = "/d" ++ "/" ++ e.name ∧
      (mkRecord "/d" 1 ⟨"a.jpg", true⟩).name = e.name ∧
      (mkRecord "/d" 1 ⟨"a.jpg", true⟩).tags = [] ∧
      (mkRecord "/d" 1 ⟨"a.jpg", true⟩).description = "" :=
  (scan_folder_record_shape "/d" [none, some ⟨"a.jpg", true⟩]
    [mkRecord "/d" 1 ⟨"a.jpg", true⟩] rfl).2
    (mkRecord "/d" 1 ⟨"a.jpg", true⟩) (by simp)

/-- C5: scan_folder on a missing path fails with the not-found error, and
on an existing non-directory path fails with the not-a-directory error; in
both cases no records are returned. -/
theorem scan_folder_error_cases (fp : String) :
    scan_folder .missing fp = .error "Folder does not exist" ∧
    scan_folder .notDir fp = .error "Path is not a directory" :=
  ⟨rfl, rfl⟩

/-- C9: a regular file whose name begins with a dot and contains no other
dot (such as .png) has no extension, so scan_folder never returns a record
carrying that name. -/
theorem scan_folder_excludes_dotfiles (fp : String)
    (entries : List (Option DirEntry)) (nm : String) (cs : List Char)
    (hnm : nm.data = '.' :: cs) (hnd : '.' ∉ cs) (imgs : List ImageInfo)
    (h : scan_folder (.dir entries) fp = .ok imgs) :
    ∀ r ∈ imgs, r.name ≠ nm := by
  have hext : extension nm = none := by
    unfold extension
    rw [hnm]
    simp [hnd]
  intro r hr hname
  have himgs := scan_folder_ok fp entries imgs h
  rw [himgs, List.mem_insertionSort, mem_collectImages] at hr
  rcases hr with ⟨i, e, _, hke, hr⟩
  have hen : e.name = nm := by rw [← hname, hr]; rfl
  unfold keepEntry at hke
  rw [hen, hext] at hke
  simp at hke

theorem scan_folder_excludes_dotfiles_witness :
    (mkRecord "/d" 1 ⟨"a.jpg", true⟩).name ≠ ".png" :=
  scan_folder_excludes_dotfiles "/d"
    [some ⟨".png", true⟩, some ⟨"a.jpg", true⟩] ".png" ['p', 'n', 'g']
    rfl (by decide) [mkRecord "/d" 1 ⟨"a.jpg", true⟩] rfl
    (mkRecord "/d" 1 ⟨"a.jpg", true⟩) (by simp)

/-- C10: the final sort is stable with the case-insensitive name as the
only key: for any key, the subsequence of returned records whose lowered
name equals that key is exactly the corresponding subsequence of the raw
(pre-sort) collection order, so tied records keep their raw relative
order. -/
theorem scan_folder_sort_stable (fp : String)
    (entries : List (Option DirEntry)) (imgs : List ImageInfo) (key : String)
    (h : scan_folder (.dir entries) fp = .ok imgs) :
    imgs.filter (fun r => toLowercase r.name == key) =
      (collectImages fp entries).filter (fun r => toLowercase r.name == key) := by
  have himgs := scan_folder_ok fp entries imgs h
  set p : ImageInfo → Bool := fun r => toLowercase r.name == key with hp
  set l : List ImageInfo := collectImages fp entries with hl
  have hpw : (l.filter p).Pairwise nameLe := by
    apply List.pairwise_of_forall_mem_list
    intro a ha b hb
    have ha2 : toLowercase a.name = key := by
      have := (List.mem_filter.mp ha).2
      simpa [hp] using this
    have hb2 : toLowercase b.name = key := by
      have := (List.mem_filter.mp hb).2
      simpa [hp] using this
    show strLe (toLowercase a.name) (toLowercase b.name) = true
    rw [ha2, hb2]
    exact listCharLe_refl _
  have hsubm : List.Sublist (l.filter p) (l.insertionSort nameLe) :=
    List.sublist_insertionSort hpw (List.filter_sublist l)
  have hsub2 : List.Sublist (l.filter p) ((l.insertionSort nameLe).filter p) := by
    have := hsubm.filter p
    rwa [List.filter_filter, List.filter_congr (by intro x _; exact Bool.and_self (p x))] at this
  have hperm : List.Perm ((l.insertionSort nameLe).filter p) (l.filter p) :=
    (List.perm_insertionSort nameLe l).filter p
  have hlen : (l.filter p).length = ((l.insertionSort nameLe).filter p).length :=
    hperm.length_eq.symm
  rw [himgs]
  exact (hsub2.eq_of_length hlen).symm

theorem scan_folder_sort_stable_witness :
    ([mkRecord "/d" 0 ⟨"A.png", true⟩, mkRecord "/d" 1 ⟨"a.png", true⟩] :
        List ImageInfo).filter (fun r => toLowercase r.name == "a.png") =
      (collectImages "/d" [some ⟨"A.png", true⟩, some ⟨"a.png", true⟩]).filter
        (fun r => toLowercase r.name == "a.png") :=
  scan_folder_sort_stable "/d" [some ⟨"A.png", true⟩, some ⟨"a.png", true⟩]
    [mkRecord "/d" 0 ⟨"A.png", true⟩, mkRecord "/d" 1 ⟨"a.png", true⟩]
    "a.png" rfl

/-- C3 counterexample: the code filters on the UTF-8 byte length of a
piece, not its character count. A piece of 17 euro signs has 17 characters
(below 50) and is nonempty after trimming, so the claim as stated keeps
it, yet its UTF-8 encoding is 51 bytes, so the code discards it: the
extraction following the claim's words (parseTagsSpec) disagrees with the
code (parseTags) on this response. -/
theorem parseTags_char_count_cex :
    parseTags "€€€€€€€€€€€€€€€€€" = [] ∧
    parseTagsSpec "€€€€€€€€€€€€€€€€€" = ["€€€€€€€€€€€€€€€€€"] ∧
    ("€€€€€€€€€€€€€€€€€" : String).length = 17 ∧
    ("€€€€€€€€€€€€€€€€€" : String).utf8ByteSize = 51 := by
  refine ⟨by decide, by decide, by decide, by decide⟩

/-- C3 (amended): generate_tags extracts tags by splitting the response on
commas, trimming then lower-casing each piece, discarding every piece that
is empty after trimming or whose UTF-8 byte length is at least 50 (for
ASCII pieces this is 50 characters), and returns the survivors in split
order; the response with pieces cat, Dog, sunset, an empty piece and a
whitespace piece yields exactly the three cleaned tags. -/
theorem parseTags_spec :
    (∀ r : String,
      List.Sublist (parseTags r)
        ((splitOnComma r.data).map (fun cs => toLowercase (strTrim ⟨cs⟩))) ∧
      (∀ t ∈ parseTags r, t ≠ "" ∧ t.utf8ByteSize < 50) ∧
      (∀ piece ∈ splitOnComma r.data,
        toLowercase (strTrim ⟨piece⟩) ≠ "" →
        (toLowercase (strTrim ⟨piece⟩)).utf8ByteSize < 50 →
        toLowercase (strTrim ⟨piece⟩) ∈ parseTags r)) ∧
    parseTags "cat, Dog , sunset,,  " = ["cat", "dog", "sunset"] := by
  constructor
  · intro r
    refine ⟨List.filter_sublist _, ?_, ?_⟩
    · intro t ht
      unfold parseTags at ht
      rw [List.mem_filter] at ht
      have h2 := ht.2
      simp only [Bool.and_eq_true, Bool.not_eq_true', beq_eq_false_iff_ne,
        decide_eq_true_eq] at h2
      exact h2
    · intro piece hp h1 h2
      unfold parseTags
      rw [List.mem_filter]
      refine ⟨List.mem_map_of_mem _ hp, ?_⟩
      simp only [Bool.and_eq_true, Bool.not_eq_true', beq_eq_false_iff_ne,
        decide_eq_true_eq]
      exact ⟨h1, h2⟩
  · decide

theorem parseTags_spec_witness :
    parseTags "cat, Dog , sunset,,  " = ["cat", "dog", "sunset"] :=
  parseTags_spec.2

/-- C4: check_ollama never returns the error variant; it returns Ok true
exactly when the health request succeeded with a 2xx status, and Ok false
both on a non-success status and on an outright request failure. -/
theorem check_ollama_spec : ∀ http : Except String Nat,
    (∃ b, check_ollama http = .ok b) ∧
    (check_ollama http = .ok true ↔
      ∃ s, http = .ok s ∧ isSuccess s = true) ∧
    (check_ollama http = .ok false ↔
      (∃ s, http = .ok s ∧ isSuccess s = false) ∨ ∃ e, http = .error e) := by
  intro http
  cases http with
  | ok s =>
    refine ⟨⟨isSuccess s, rfl⟩, ?_, ?_⟩
    · constructor
      · intro h
        exact ⟨s, rfl, Except.ok.inj h⟩
      · rintro ⟨s2, hs2, hsucc⟩
        have hs : s2 = s := by injection hs2 with h0; omega
        subst hs
        simp [check_ollama, hsucc]
    · constructor
      · intro h
        exact Or.inl ⟨s, rfl, Except.ok.inj h⟩
      · rintro (⟨s2, hs2, hsucc⟩ | ⟨e, he⟩)
        · have hs : s2 = s := by injection hs2 with h0; omega
          subst hs
          simp [check_ollama, hsucc]
        · exact absurd he (by simp)
  | error e =>
    refine ⟨⟨false, rfl⟩, ?_, ?_⟩
    · constructor
      · intro h
        exact absurd (Except.ok.inj h) (by simp)
      · rintro ⟨s, hs, _⟩
        exact absurd hs (by simp)
    · exact ⟨fun _ => Or.inr ⟨e, rfl⟩, fun _ => rfl⟩

theorem check_ollama_spec_witness :
    check_ollama (Except.ok 200) = .ok true ∧
    check_ollama (Except.error "connection refused") = .ok false :=
  ⟨((check_ollama_spec (.ok 200)).2.1).mpr ⟨200, rfl, rfl⟩,
   ((check_ollama_spec (.error "connection refused")).2.2).mpr
     (Or.inr ⟨"connection refused", rfl⟩)⟩

/-- C6: when the POST cannot be sent, generate_tags fails with the network
error message, which ends in the phrase asking whether Ollama is
running. -/
theorem generate_tags_network_error (bytes : List Nat) (e : String) :
    generate_tags (.ok bytes) (.sendError e) =
      .error ("Failed to call Ollama: " ++ e ++ ". Is Ollama running?") ∧
    ∃ pre, "Failed to call Ollama: " ++ e ++ ". Is Ollama running?" =
      pre ++ "Is Ollama running?" := by
  refine ⟨rfl, "Failed to call Ollama: " ++ e ++ ". ", ?_⟩
  rw [String.append_assoc ("Failed to call Ollama: " ++ e) ". " "Is Ollama running?"]
  rfl

/-- C7: when the inference endpoint answers with a non-success status,
generate_tags fails with the server error carrying that status, and the
body is never parsed: the result does not depend on it. -/
theorem generate_tags_server_error (bytes : List Nat) (status : Nat)
    (body body2 : Except String String) (h : isSuccess status = false) :
    generate_tags (.ok bytes) (.response status body) =
      .error ("Ollama returned error: " ++ toString status) ∧
    generate_tags (.ok bytes) (.response status body) =
      generate_tags (.ok bytes) (.response status body2) := by
  unfold generate_tags
  simp [h]

theorem generate_tags_server_error_witness :
    isSuccess 500 = false ∧
    generate_tags (.ok [1, 2, 3]) (.response 500 (.ok "cat, dog")) =
      .error ("Ollama returned error: " ++ toString 500) :=
  ⟨rfl, (generate_tags_server_error [1, 2, 3] 500 (.ok "cat, dog")
    (.error "ignored") rfl).1⟩

theorem charToSextet_sextetToChar :
    ∀ n : Nat, n < 64 → charToSextet (sextetToChar n) = some n := by decide

theorem sextetToChar_ne_pad :
    ∀ n : Nat, n < 64 → sextetToChar n ≠ '=' := by decide

/-- Decoding inverts encoding, chunk by chunk. -/
theorem decodeChunks_encodeChunks :
    ∀ bs : List Nat, (∀ b ∈ bs, b < 256) →
      decodeChunks (encodeChunks bs) = some bs
  | [], _ => rfl
  | [b0], h => by
    have hb0 : b0 < 256 := h b0 (by simp)
    have e0 := charToSextet_sextetToChar (b0 / 4) (by omega)
    have e1 := charToSextet_sextetToChar (b0 % 4 * 16) (by omega)
    rw [show encodeChunks [b0] =
      [sextetToChar (b0 / 4), sextetToChar (b0 % 4 * 16), '=', '='] from rfl]
    rw [decodeChunks]
    simp only [e0, e1, decide_True, Bool.and_self, Bool.and_true,
      Bool.true_and, if_true]
    simp only [Option.some.injEq, List.cons.injEq, and_true]
    omega
  | [b0, b1], h => by
    have hb0 : b0 < 256 := h b0 (by simp)
    have hb1 : b1 < 256 := h b1 (by simp)
    have hne : sextetToChar (b1 % 16 * 4) ≠ '=' := sextetToChar_ne_pad _ (by omega)
    have d2 := decide_eq_false hne
    have e0 := charToSextet_sextetToChar (b0 / 4) (by omega)
    have e1 := charToSextet_sextetToChar (b0 % 4 * 16 + b1 / 16) (by omega)
    have e2 := charToSextet_sextetToChar (b1 % 16 * 4) (by omega)
    rw [show encodeChunks [b0, b1] =
      [sextetToChar (b0 / 4), sextetToChar (b0 % 4 * 16 + b1 / 16),
       sextetToChar (b1 % 16 * 4), '='] from rfl]
    rw [decodeChunks]
    simp only [d2, e0, e1, e2, decide_True, Bool.false_and, Bool.and_false,
      Bool.and_true, Bool.true_and, Bool.and_self, Bool.false_eq_true,
      if_true, if_false]
    simp only [Option.some.injEq, List.cons.injEq, and_true]
    constructor
    · omega
    · omega
  | b0 :: b1 :: b2 :: rest, h => by
    have hb0 : b0 < 256 := h b0 (by simp)
    have hb1 : b1 < 256 := h b1 (by simp)
    have hb2 : b2 < 256 := h b2 (by simp)
    have ih := decodeChunks_encodeChunks rest (fun b hb => h b (by simp [hb]))
    have hne3 : sextetToChar (b2 % 64) ≠ '=' := sextetToChar_ne_pad _ (by omega)
    have d3 := decide_eq_false hne3
    have e0 := charToSextet_sextetToChar (b0 / 4) (by omega)
    have e1 := charToSextet_sextetToChar (b0 % 4 * 16 + b1 / 16) (by omega)
    have e2 := charToSextet_sextetToChar (b1 % 16 * 4 + b2 / 64) (by omega)
    have e3 := charToSextet_sextetToChar (b2 % 64) (by omega)
    rw [show encodeChunks (b0 :: b1 :: b2 :: rest) =
      sextetToChar (b0 / 4) :: sextetToChar (b0 % 4 * 16 + b1 / 16)
        :: sextetToChar (b1 % 16 * 4 + b2 / 64) :: sextetToChar (b2 % 64)
        :: encodeChunks rest from rfl]
    rw [decodeChunks]
    simp only [d3, e0, e1, e2, e3, ih, decide_True, Bool.false_and,
      Bool.and_false, Bool.and_true, Bool.true_and, Bool.and_self,
      Bool.false_eq_true, if_true, if_false]
    simp only [Option.some.injEq, List.cons.injEq, and_true]
    refine ⟨by omega, by omega, by omega⟩

/-- C8: the base64 string generate_tags places in the request round-trips:
standard base64 decoding of the encoding of any byte sequence yields the
original bytes. -/
theorem base64_roundtrip (bs : List Nat) (h : ∀ b ∈ bs, b < 256) :
    (mkOllamaRequest (base64Encode bs)).images = [base64Encode bs] ∧
    base64Decode (base64Encode bs) = some bs :=
  ⟨rfl, decodeChunks_encodeChunks bs h⟩

theorem base64_roundtrip_witness :
    (∀ b ∈ [77, 97, 110], b < 256) ∧
    base64Decode (base64Encode [77, 97, 110]) = some [77, 97, 110] :=
  ⟨by decide, (base64_roundtrip [77, 97, 110] (by decide)).2⟩

end ImageGallery
